import Mathlib

/-!
Verification development for `lissajous.go`, a Go program that renders
Lissajous curves into an animated sequence of indexed-color frames.

The program's floating-point values are modelled by an arbitrary linear
ordered field with a floor structure (instantiated at `ℚ` for concrete
computations and at `ℝ` for the trigonometric sweep); Go `int` is `ℤ`,
Go slices are Lean `List`s.
-/

/-- Go's `int(f)` conversion on a float: truncation toward zero. -/
def goTrunc {α : Type} [LinearOrderedField α] [FloorRing α] (q : α) : ℤ :=
  if 0 ≤ q then ⌊q⌋ else ⌈q⌉

/-- The three sub-pixel offsets `{-0.55, 0, 0.55}` used by `paint`
(source lines 69–70). `11/20 = 0.55`. -/
def offsets {α : Type} [LinearOrderedField α] : List α :=
  [-(11 / 20), 0, 11 / 20]

/-- Read grid cell `(i, j)` of a `[][]int` canvas (0 when out of range). -/
def getCell (c : List (List ℤ)) (i j : ℕ) : ℤ :=
  (c.getD i []).getD j 0

/-- The in-bounds write `canvas[intx][inty] = min(canvas[intx][inty]+1, maxVal)`
(source line 79), as a functional update at indices `(i, j)`. -/
def bumpCell (c : List (List ℤ)) (i j : ℕ) (maxVal : ℤ) : List (List ℤ) :=
  c.set i ((c.getD i []).set j (min ((c.getD i []).getD j 0 + 1) maxVal))

/-- One iteration of `paint`'s double offset loop (source lines 71–79):
compute the candidate cell, skip if either index is outside
`[0, len(canvas))`, otherwise bump that cell. `px`, `py` are the already
scaled coordinates. -/
def paintTap {α : Type} [LinearOrderedField α] [FloorRing α]
    (px py : α) (scale : ℤ) (maxVal : ℤ) (c : List (List ℤ))
    (xoff yoff : α) : List (List ℤ) :=
  let intx := scale + goTrunc (px + xoff)
  let inty := scale + goTrunc (py + yoff)
  if intx ≥ (c.length : ℤ) ∨ intx < 0 then c
  else if inty ≥ (c.length : ℤ) ∨ inty < 0 then c
  else bumpCell c intx.toNat inty.toNat maxVal

/-- The Go function `paint(x, y, scale, canvas, maxVal)`
(source lines 66–82): scale the point by `scale`, then splat the nine
offset taps onto the canvas. -/
def paint {α : Type} [LinearOrderedField α] [FloorRing α]
    (x y : α) (scale : ℤ) (c : List (List ℤ)) (maxVal : ℤ) : List (List ℤ) :=
  let px := x * (scale : α)
  let py := y * (scale : α)
  offsets.foldl
    (fun c1 xoff =>
      offsets.foldl (fun c2 yoff => paintTap px py scale maxVal c2 xoff yoff) c1)
    c

/-- A sequence of `paint` calls `(x, y, scale)` applied in order, all with
the same saturation cap `maxVal` (the program always passes 15). -/
def applyPaints {α : Type} [LinearOrderedField α] [FloorRing α]
    (maxVal : ℤ) (calls : List (α × α × ℤ)) (c : List (List ℤ)) :
    List (List ℤ) :=
  calls.foldl (fun g call => paint call.1 call.2.1 call.2.2 g maxVal) c

/-- The fresh all-zero `2·size × 2·size` pixel array allocated per frame
(source lines 92–95), for a general side length `n`. -/
def zeroGrid (n : ℕ) : List (List ℤ) :=
  List.replicate n (List.replicate n 0)

/-- The saturation invariant: every cell of the canvas lies in `[0, maxVal]`. -/
def gridInv (maxVal : ℤ) (c : List (List ℤ)) : Prop :=
  ∀ row ∈ c, ∀ v ∈ row, 0 ≤ v ∧ v ≤ maxVal

/-- A canvas is square: each row's length equals the number of rows
(as `lissajous` always allocates, source lines 92–95). -/
def squareGrid (c : List (List ℤ)) : Prop :=
  ∀ row ∈ c, row.length = c.length

/-- The skip condition of `paint`'s bounds guard for one index of one tap
(source lines 73–78): the candidate index `scale + int(p + off)` lies
outside `[0, len)`. -/
def tapOut {α : Type} [LinearOrderedField α] [FloorRing α]
    (len : ℕ) (p off : α) (scale : ℤ) : Prop :=
  scale + goTrunc (p + off) ≥ (len : ℤ) ∨ scale + goTrunc (p + off) < 0

/-- The Imgur palette of the source (lines 20–37): sixteen RGBA colors
from imgur grey to white. -/
def palette : List (ℕ × ℕ × ℕ × ℕ) :=
  [(0x2c, 0x2f, 0x34, 0xff), (0x3b, 0x3e, 0x42, 0xff),
   (0x4a, 0x4d, 0x50, 0xff), (0x59, 0x5c, 0x5e, 0xff),
   (0x68, 0x6b, 0x6c, 0xff), (0x77, 0x7a, 0x7a, 0xff),
   (0x86, 0x89, 0x88, 0xff), (0x95, 0x98, 0x96, 0xff),
   (0xa4, 0xa7, 0x94, 0xff), (0xb3, 0xb6, 0xa2, 0xff),
   (0xc2, 0xc5, 0xb0, 0xff), (0xd1, 0xd4, 0xbe, 0xff),
   (0xe0, 0xe3, 0xcc, 0xff), (0xff, 0xf2, 0xda, 0xff),
   (0xff, 0xf1, 0xe8, 0xff), (0xff, 0xff, 0xff, 0xff)]

/-- The RGBA color stored for palette index `k` (out-of-range guarded). -/
def paletteColor (k : ℤ) : ℕ × ℕ × ℕ × ℕ :=
  palette.getD k.toNat (0, 0, 0, 0)

/-- A Go `image.Paletted`: the rectangle `(0,0)-(width,height)` plus the
palette index stored at each pixel. `NewPaletted` zero-fills the pixels. -/
structure GoImage where
  width : ℤ
  height : ℤ
  pix : ℕ → ℕ → ℤ

/-- `img.Set(x, y, palette[v])`: out-of-rectangle writes are silently
dropped (Go's `Paletted.Set` checks `Point{x,y}.In(p.Rect)`); in-range
writes store the palette index `v` (the palette colors are pairwise
distinct, so `Palette.Index(palette[v]) = v`). -/
def imgSet (img : GoImage) (x y : ℕ) (v : ℤ) : GoImage :=
  if (x : ℤ) < img.width ∧ (y : ℤ) < img.height then
    { img with pix := fun a b => if a = x ∧ b = y then v else img.pix a b }
  else img

/-- The frame-conversion loop of `lissajous` (source lines 88–89 and
104–109): allocate a `(2·size+1) × (2·size-1)` paletted image and `Set`
every cell of the pixel array `lisa` onto it. -/
def renderGrid (size : ℕ) (lisa : List (List ℤ)) : GoImage :=
  (List.range lisa.length).foldl
    (fun im x =>
      (List.range ((lisa.getD x []).length)).foldl
        (fun im2 y => imgSet im2 x y (getCell lisa x y)) im)
    ⟨2 * (size : ℤ) + 1, 2 * (size : ℤ) - 1, fun _ _ => 0⟩

/-- The zero image, used as a default for list indexing. -/
def defaultImg : GoImage :=
  ⟨0, 0, fun _ _ => 0⟩

/-- The angular sweep `for t := 0.0; t < limit; t += res` (source line 98),
as a fuel-indexed loop: `fuel` bounds the number of iterations considered,
so that the (possibly non-terminating) while loop is total. The returned
list holds the `t` values of the iterations actually executed. -/
def sweepAux {α : Type} [LinearOrderedField α] (limit res : α) :
    ℕ → α → List α
  | 0, _ => []
  | n + 1, t => if t < limit then t :: sweepAux limit res n (t + res) else []

/-- The configuration flags consumed by `lissajous` (source lines 40–55);
Go `int` fields that are only ever non-negative in the claims are `ℕ`. -/
structure LisaConfig where
  nframes : ℕ
  size : ℕ
  delay : ℤ
  cycles : ℝ
  xfreq : ℝ
  xfreqInc : ℝ
  yfreq : ℝ
  yfreqInc : ℝ
  xphase : ℝ
  xphaseInc : ℝ
  yphase : ℝ
  yphaseInc : ℝ
  res : ℝ

/-- The per-frame pixel array: a fresh `2·size × 2·size` zero grid, then
one `paint(sin(t·xfreq+xphase), sin(t·yfreq+yphase), size-2, lisa, 15)`
per sample of the sweep (source lines 92–102). -/
noncomputable def frameGrid (size : ℕ) (cycles res xf yf xp yp : ℝ)
    (fuel : ℕ) : List (List ℤ) :=
  (sweepAux (cycles * (2 * Real.pi)) res fuel 0).foldl
    (fun g t =>
      paint (Real.sin (t * xf + xp)) (Real.sin (t * yf + yp))
        ((size : ℤ) - 2) g 15)
    (zeroGrid (2 * size))

/-- One frame of `lissajous`: the pixel array rendered onto a fresh
paletted image (source lines 88–109). -/
noncomputable def buildFrame (size : ℕ) (cycles res xf yf xp yp : ℝ)
    (fuel : ℕ) : GoImage :=
  renderGrid size (frameGrid size cycles res xf yf xp yp fuel)

/-- The frame loop of `lissajous` (source lines 87–121) over the number of
remaining frames, threading the mutable parameters `xfreq`, `yfreq`,
`xphase`, `yphase`: each iteration builds a frame, advances the four
parameters by their increments, and appends the frame and the configured
delay. Returns the frame list and the delay list, in frame order. -/
noncomputable def lissajousLoop (cfg : LisaConfig) (fuel : ℕ) :
    ℕ → ℝ → ℝ → ℝ → ℝ → List GoImage × List ℤ
  | 0, _, _, _, _ => ([], [])
  | n + 1, xf, yf, xp, yp =>
    let img := buildFrame cfg.size cfg.cycles cfg.res xf yf xp yp fuel
    let rest := lissajousLoop cfg fuel n (xf + cfg.xfreqInc)
      (yf + cfg.yfreqInc) (xp + cfg.xphaseInc) (yp + cfg.yphaseInc)
    (img :: rest.1, cfg.delay :: rest.2)

/-- The `gif.GIF` animation assembled by `lissajous`: loop count, frames,
and per-frame delays. -/
structure GoGIF where
  loopCount : ℕ
  images : List GoImage
  delays : List ℤ

/-- The function `lissajous` (source lines 85–124), up to the external
GIF encoding: runs the frame loop from the configured initial parameters
and collects the animation. -/
noncomputable def lissajous (cfg : LisaConfig) (fuel : ℕ) : GoGIF :=
  let p := lissajousLoop cfg fuel cfg.nframes cfg.xfreq cfg.yfreq
    cfg.xphase cfg.yphase
  ⟨cfg.nframes, p.1, p.2⟩

/-- The observable events of `main` (source lines 145–153), in program
order. -/
inductive MainEvent where
  | openErrorMsg : MainEvent
  | renderAndEncode : MainEvent
  | encodeErrorMsg : MainEvent
deriving DecidableEq

/-- The control flow of `main` (source lines 145–153): if `os.Create`
fails, the error is printed, but there is no early return — `lissajous(f)`
is invoked unconditionally, and an encoding failure is printed afterwards. -/
def mainGo (openFails : Bool) (encodeFails : Bool) : List MainEvent :=
  (if openFails then [MainEvent.openErrorMsg] else []) ++
    ([MainEvent.renderAndEncode] ++
      (if encodeFails then [MainEvent.encodeErrorMsg] else []))

/-- The inner pixel loop of the frame conversion (source lines 106–108),
for row `x`, over `y < n`: names the inner fold of `renderGrid`. -/
def rowFold (lisa : List (List ℤ)) (x n : ℕ) (im : GoImage) : GoImage :=
  (List.range n).foldl (fun im2 y => imgSet im2 x y (getCell lisa x y)) im

/-- The outer pixel loop of the frame conversion (source lines 105–109),
over `x < m`: names the outer fold of `renderGrid`. -/
def gridFold (lisa : List (List ℤ)) (m : ℕ) (im : GoImage) : GoImage :=
  (List.range m).foldl
    (fun im1 x => rowFold lisa x ((lisa.getD x []).length) im1) im

/-! ## Helper lemmas -/

theorem goTrunc_center_neg : goTrunc ((0 : ℚ) * ((8 : ℤ) : ℚ) + -(11 / 20)) = 0 := by
  norm_num [goTrunc]

theorem goTrunc_center_zero : goTrunc ((0 : ℚ) * ((8 : ℤ) : ℚ) + 0) = 0 := by
  norm_num [goTrunc]

theorem goTrunc_center_pos : goTrunc ((0 : ℚ) * ((8 : ℤ) : ℚ) + 11 / 20) = 0 := by
  norm_num [goTrunc]

set_option maxHeartbeats 1000000 in
theorem paint_center_eval : paint (0 : ℚ) 0 8 (zeroGrid 20) 15 =
    (zeroGrid 20).set 8 ((List.replicate 20 (0 : ℤ)).set 8 9) := by
  simp only [paint, offsets, List.foldl_cons, List.foldl_nil]
  simp only [paintTap, goTrunc_center_neg, goTrunc_center_zero, goTrunc_center_pos]
  norm_num [bumpCell, zeroGrid]
  decide

/-! ## Claim theorems -/

/-- C1: the code violates the claim. When the output file cannot be
created, `main` prints the error but has no early return: `lissajous(f)`
is still invoked (frames are built and handed to the encoder, whose
failure is then printed). This theorem evaluates the control flow of
`main` at the failing input `openFails = true`. -/
theorem main_renders_despite_open_error :
    MainEvent.renderAndEncode ∈ mainGo true false ∧
    MainEvent.renderAndEncode ∈ mainGo true true ∧
    mainGo true true =
      [MainEvent.openErrorMsg, MainEvent.renderAndEncode,
        MainEvent.encodeErrorMsg] := by
  decide

/-- C2 (counterexample): a single `paint(x=0, y=0, scale=8)` on a fresh
all-zero 20×20 grid does not increment the nine cells with row and column
in `{7, 8, 9}` by 1 each: cell `(7,7)` stays 0 and cell `(8,8)` becomes 9,
because Go's `int(...)` conversion truncates toward zero, sending all nine
`±0.55` taps to the same cell. -/
theorem paint_center_claim_false :
    getCell (paint (0 : ℚ) 0 8 (zeroGrid 20) 15) 7 7 = 0 ∧
    getCell (paint (0 : ℚ) 0 8 (zeroGrid 20) 15) 8 8 = 9 := by
  rw [paint_center_eval]
  decide

/-- C2 (amended): a single `paint(x=0, y=0, scale=8)` on a fresh all-zero
20×20 grid increments exactly the single cell `(8,8)`, by 9 (all nine
offset taps truncate toward zero onto that one cell), and mutates no other
cell: the result is the zero grid with cell `(8,8)` set to 9. -/
theorem paint_center_amended : paint (0 : ℚ) 0 8 (zeroGrid 20) 15 =
    (zeroGrid 20).set 8 ((List.replicate 20 (0 : ℤ)).set 8 9) :=
  paint_center_eval

theorem getD_set_eval {γ : Type} (l : List γ) (j : ℕ) (v d : γ) (b : ℕ) :
    (l.set j v).getD b d = if b = j ∧ j < l.length then v else l.getD b d := by
  rcases eq_or_ne b j with rfl | hne
  · by_cases h : b < l.length
    · simp [List.getD_eq_getElem?_getD, List.getElem?_set_self h, h]
    · rw [List.set_eq_of_length_le (Nat.le_of_not_lt h)]
      simp [h]
  · simp [List.getD_eq_getElem?_getD, List.getElem?_set_ne (Ne.symm hne), hne]

theorem getCell_set (c : List (List ℤ)) (i : ℕ) (r : List ℤ) (a b : ℕ) :
    getCell (c.set i r) a b =
      if a = i ∧ i < c.length then r.getD b 0 else getCell c a b := by
  unfold getCell
  rw [getD_set_eval]
  split <;> rfl

theorem getD_row_mem (c : List (List ℤ)) (i : ℕ) (hi : i < c.length) :
    c.getD i [] ∈ c := by
  rw [List.getD_eq_getElem _ _ hi]
  exact List.getElem_mem hi

theorem bumpCell_length (c : List (List ℤ)) (i j : ℕ) (m : ℤ) :
    (bumpCell c i j m).length = c.length :=
  List.length_set c i _

theorem bumpCell_square (c : List (List ℤ)) (i j : ℕ) (m : ℤ)
    (hsq : squareGrid c) : squareGrid (bumpCell c i j m) := by
  by_cases hi : i < c.length
  · intro r hr
    rw [bumpCell_length]
    rcases List.mem_or_eq_of_mem_set hr with h | rfl
    · exact hsq r h
    · rw [List.length_set]
      exact hsq _ (getD_row_mem c i hi)
  · unfold bumpCell
    rw [List.set_eq_of_length_le (Nat.le_of_not_lt hi)]
    exact hsq

theorem bumpCell_inv (c : List (List ℤ)) (i j : ℕ) (m : ℤ)
    (h : gridInv m c) : gridInv m (bumpCell c i j m) := by
  by_cases hi : i < c.length
  · intro r hr
    rcases List.mem_or_eq_of_mem_set hr with hc | rfl
    · exact h r hc
    · intro v hv
      rcases List.mem_or_eq_of_mem_set hv with hv' | rfl
      · exact h _ (getD_row_mem c i hi) v hv'
      · by_cases hj : j < (c.getD i []).length
        · have hmem : (c.getD i []).getD j 0 ∈ c.getD i [] := by
            rw [List.getD_eq_getElem _ _ hj]
            exact List.getElem_mem hj
          have hb := h _ (getD_row_mem c i hi) _ hmem
          constructor
          · exact le_min (by omega) (by omega)
          · exact min_le_right _ _
        · have h0 : (c.getD i []).getD j 0 = 0 := by
            rw [List.getD_eq_getElem?_getD,
              List.getElem?_eq_none (Nat.le_of_not_lt hj)]
            rfl
          -- the row write is out of range for this row, so nothing changed;
          -- but the disjunction still offers the written value, which is fine:
          rw [List.set_eq_of_length_le (Nat.le_of_not_lt hj)] at hv
          exact h _ (getD_row_mem c i hi) _ hv
  · unfold bumpCell
    rw [List.set_eq_of_length_le (Nat.le_of_not_lt hi)]
    exact h

theorem bumpCell_mono (c : List (List ℤ)) (i j : ℕ) (m : ℤ)
    (h : gridInv m c) (a b : ℕ) :
    getCell c a b ≤ getCell (bumpCell c i j m) a b := by
  unfold bumpCell
  rw [getCell_set]
  split
  · next hcond =>
    obtain ⟨rfl, hi⟩ := hcond
    rw [getD_set_eval]
    split
    · next hcond2 =>
      obtain ⟨rfl, hj⟩ := hcond2
      have hmem : (c.getD a []).getD b 0 ∈ c.getD a [] := by
        rw [List.getD_eq_getElem _ _ hj]
        exact List.getElem_mem hj
      have hb := h _ (getD_row_mem c a hi) _ hmem
      have hgc : getCell c a b = (c.getD a []).getD b 0 := rfl
      exact le_min (by omega) (by omega)
    · exact le_refl _
  · exact le_refl _

theorem paintTap_inv_mono {α : Type} [LinearOrderedField α] [FloorRing α]
    (px py : α) (scale m : ℤ) (c : List (List ℤ)) (xoff yoff : α)
    (h : gridInv m c) :
    gridInv m (paintTap px py scale m c xoff yoff) ∧
      ∀ a b, getCell c a b ≤ getCell (paintTap px py scale m c xoff yoff) a b := by
  simp only [paintTap]
  split_ifs
  · exact ⟨h, fun a b => le_refl _⟩
  · exact ⟨h, fun a b => le_refl _⟩
  · exact ⟨bumpCell_inv _ _ _ _ h, bumpCell_mono _ _ _ _ h⟩

theorem foldl_inv_mono {ι : Type} (m : ℤ)
    (f : List (List ℤ) → ι → List (List ℤ))
    (hf : ∀ g i, gridInv m g → gridInv m (f g i) ∧
      ∀ a b, getCell g a b ≤ getCell (f g i) a b) :
    ∀ (l : List ι) (g : List (List ℤ)), gridInv m g →
      gridInv m (l.foldl f g) ∧
        ∀ a b, getCell g a b ≤ getCell (l.foldl f g) a b := by
  intro l
  induction l with
  | nil => exact fun g hg => ⟨hg, fun a b => le_refl _⟩
  | cons i l ih =>
    intro g hg
    obtain ⟨h1, h2⟩ := hf g i hg
    obtain ⟨h3, h4⟩ := ih (f g i) h1
    exact ⟨h3, fun a b => le_trans (h2 a b) (h4 a b)⟩

theorem paint_inv_mono {α : Type} [LinearOrderedField α] [FloorRing α]
    (x y : α) (scale m : ℤ) (c : List (List ℤ)) (h : gridInv m c) :
    gridInv m (paint x y scale c m) ∧
      ∀ a b, getCell c a b ≤ getCell (paint x y scale c m) a b := by
  simp only [paint]
  exact foldl_inv_mono m _
    (fun g xoff hg => foldl_inv_mono m _
      (fun g2 yoff hg2 => paintTap_inv_mono _ _ _ _ _ _ _ hg2) _ g hg)
    _ c h

/-- C3: the saturation law. For every grid whose cells all lie in
`[0, maxVal]`, after any sequence of `paint` calls every cell still lies
in `[0, maxVal]`, and no cell ever decreases (`paint` never makes a cell
negative, never exceeds the cap, never decrements). -/
theorem paint_saturation {α : Type} [LinearOrderedField α] [FloorRing α]
    (maxVal : ℤ) (calls : List (α × α × ℤ)) (c : List (List ℤ))
    (h : gridInv maxVal c) :
    gridInv maxVal (applyPaints maxVal calls c) ∧
      ∀ i j, getCell c i j ≤ getCell (applyPaints maxVal calls c) i j := by
  unfold applyPaints
  exact foldl_inv_mono maxVal _
    (fun g call hg => paint_inv_mono call.1 call.2.1 call.2.2 maxVal g hg)
    calls c h

/-- C3 witness: a concrete saturated grid and one concrete `paint` call. -/
theorem paint_saturation_witness :
    gridInv 15 (applyPaints (α := ℚ) 15 [(0, 0, 8)] [[0, 15], [3, 1]]) ∧
      ∀ i j, getCell [[0, 15], [3, 1]] i j ≤
        getCell (applyPaints (α := ℚ) 15 [(0, 0, 8)] [[0, 15], [3, 1]]) i j :=
  paint_saturation 15 [(0, 0, 8)] [[0, 15], [3, 1]] (by unfold gridInv; decide)

theorem foldl_fix {β ι : Type} (f : β → ι → β) (l : List ι) (b : β)
    (hf : ∀ i ∈ l, f b i = b) : l.foldl f b = b := by
  induction l with
  | nil => rfl
  | cons i l ih =>
    rw [List.foldl_cons, hf i (List.mem_cons_self i l)]
    exact ih fun i' hi' => hf i' (List.mem_cons_of_mem _ hi')

theorem paintTap_out_eq {α : Type} [LinearOrderedField α] [FloorRing α]
    {px py xoff yoff : α} {scale maxVal : ℤ} {c : List (List ℤ)}
    (h : tapOut c.length px xoff scale ∨ tapOut c.length py yoff scale) :
    paintTap px py scale maxVal c xoff yoff = c := by
  simp only [paintTap]
  split_ifs with h1 h2
  · rfl
  · rfl
  · simp only [tapOut] at h
    rcases h with h | h
    · exact absurd h h1
    · exact absurd h h2

/-- C5: out-of-range taps are pure no-ops. Any tap of `paint` whose
candidate cell lies outside `[0, len(canvas))` in either axis modifies no
cell, and a `paint` call for which all nine candidates are out of range in
some axis leaves the entire grid unchanged (no clamping onto the border). -/
theorem paint_out_of_bounds_noop {α : Type} [LinearOrderedField α]
    [FloorRing α] (x y : α) (scale maxVal : ℤ) (c : List (List ℤ)) :
    (∀ px py xoff yoff : α,
        tapOut c.length px xoff scale ∨ tapOut c.length py yoff scale →
        paintTap px py scale maxVal c xoff yoff = c) ∧
    ((∀ xoff ∈ (offsets : List α), ∀ yoff ∈ (offsets : List α),
        tapOut c.length (x * (scale : α)) xoff scale ∨
          tapOut c.length (y * (scale : α)) yoff scale) →
      paint x y scale c maxVal = c) := by
  constructor
  · exact fun px py xoff yoff h => paintTap_out_eq h
  · intro h
    simp only [paint]
    exact foldl_fix _ _ _ fun xoff hx =>
      foldl_fix _ _ _ fun yoff hy => paintTap_out_eq (h xoff hx yoff hy)

/-- C5 witness: `paint(10, 10, 8)` on a 20×20 grid — the scaled point
`(80, 80)` is far outside the grid in both axes, and the call leaves the
grid unchanged. -/
theorem paint_out_of_bounds_noop_witness :
    paint (10 : ℚ) 10 8 (zeroGrid 20) 15 = zeroGrid 20 :=
  (paint_out_of_bounds_noop (10 : ℚ) 10 8 15 (zeroGrid 20)).2 (by
    intro xoff hx yoff hy
    left
    unfold offsets at hx
    unfold tapOut goTrunc zeroGrid
    fin_cases hx <;> norm_num)

theorem paintTap_dichotomy {α : Type} [LinearOrderedField α] [FloorRing α]
    (px py : α) (scale maxVal : ℤ) (c : List (List ℤ))
    (hsq : squareGrid c) (xoff yoff : α) :
    paintTap px py scale maxVal c xoff yoff = c ∨
      ∃ i j : ℕ, i < c.length ∧ j < (c.getD i []).length ∧
        paintTap px py scale maxVal c xoff yoff =
          bumpCell c i j maxVal := by
  simp only [paintTap]
  split_ifs with h1 h2
  · exact Or.inl rfl
  · exact Or.inl rfl
  · push_neg at h1 h2
    obtain ⟨hx1, hx2⟩ := h1
    obtain ⟨hy1, hy2⟩ := h2
    refine Or.inr ⟨(scale + goTrunc (px + xoff)).toNat,
      (scale + goTrunc (py + yoff)).toNat, ?_, ?_, rfl⟩
    · omega
    · have hrow : (c.getD (scale + goTrunc (px + xoff)).toNat []).length =
          c.length := by
        apply hsq
        exact getD_row_mem c _ (by omega)
      omega

theorem paintTap_square_length {α : Type} [LinearOrderedField α]
    [FloorRing α] (px py : α) (scale maxVal : ℤ) (c : List (List ℤ))
    (xoff yoff : α) (hsq : squareGrid c) :
    squareGrid (paintTap px py scale maxVal c xoff yoff) ∧
      (paintTap px py scale maxVal c xoff yoff).length = c.length := by
  simp only [paintTap]
  split_ifs
  · exact ⟨hsq, rfl⟩
  · exact ⟨hsq, rfl⟩
  · exact ⟨bumpCell_square _ _ _ _ hsq, bumpCell_length _ _ _ _⟩

theorem foldl_square_length {ι : Type}
    (f : List (List ℤ) → ι → List (List ℤ)) (n : ℕ)
    (hf : ∀ g i, squareGrid g → g.length = n →
      squareGrid (f g i) ∧ (f g i).length = n) :
    ∀ (l : List ι) (g : List (List ℤ)), squareGrid g → g.length = n →
      squareGrid (l.foldl f g) ∧ (l.foldl f g).length = n := by
  intro l
  induction l with
  | nil => exact fun g hg hn => ⟨hg, hn⟩
  | cons i l ih =>
    intro g hg hn
    obtain ⟨h1, h2⟩ := hf g i hg hn
    exact ih (f g i) h1 h2

/-- C10: implicit safety of `paint`. On a square grid, every one of the
nine taps either skips (its candidate cell failed a bounds check) or
performs its read-modify-write at indices that are in range for both the
outer slice and the row actually accessed; consequently `paint` is total
and preserves the grid's shape. -/
theorem paint_access_safe {α : Type} [LinearOrderedField α] [FloorRing α]
    (x y : α) (scale maxVal : ℤ) (c : List (List ℤ))
    (hsq : squareGrid c) :
    (∀ px py xoff yoff : α,
        paintTap px py scale maxVal c xoff yoff = c ∨
          ∃ i j : ℕ, i < c.length ∧ j < (c.getD i []).length ∧
            paintTap px py scale maxVal c xoff yoff =
              bumpCell c i j maxVal) ∧
    squareGrid (paint x y scale c maxVal) ∧
      (paint x y scale c maxVal).length = c.length := by
  constructor
  · exact fun px py xoff yoff => paintTap_dichotomy px py scale maxVal c hsq xoff yoff
  · have := foldl_square_length
      (fun c1 (xoff : α) => offsets.foldl
        (fun c2 yoff => paintTap (x * (scale : α)) (y * (scale : α))
          scale maxVal c2 xoff yoff) c1)
      c.length
      (fun g xoff hg hn => foldl_square_length _ c.length
        (fun g2 yoff hg2 hn2 => by
          have h := paintTap_square_length (x * (scale : α))
            (y * (scale : α)) scale maxVal g2 xoff yoff hg2
          exact ⟨h.1, h.2.trans hn2⟩) _ g hg hn)
      offsets c hsq rfl
    simpa only [paint] using this

/-- C10 witness: a concrete square grid. -/
theorem paint_access_safe_witness :
    (∀ px py xoff yoff : ℚ,
        paintTap px py 1 15 [[0, 0], [0, 0]] xoff yoff = [[0, 0], [0, 0]] ∨
          ∃ i j : ℕ, i < ([[0, 0], [0, 0]] : List (List ℤ)).length ∧
            j < (([[0, 0], [0, 0]] : List (List ℤ)).getD i []).length ∧
            paintTap px py 1 15 [[0, 0], [0, 0]] xoff yoff =
              bumpCell [[0, 0], [0, 0]] i j 15) ∧
    squareGrid (paint (0 : ℚ) 0 1 [[0, 0], [0, 0]] 15) ∧
      (paint (0 : ℚ) 0 1 [[0, 0], [0, 0]] 15).length =
        ([[0, 0], [0, 0]] : List (List ℤ)).length :=
  paint_access_safe 0 0 1 15 [[0, 0], [0, 0]] (by unfold squareGrid; decide)

theorem renderGrid_eq_gridFold (size : ℕ) (lisa : List (List ℤ)) :
    renderGrid size lisa = gridFold lisa lisa.length
      ⟨2 * (size : ℤ) + 1, 2 * (size : ℤ) - 1, fun _ _ => 0⟩ :=
  rfl

theorem imgSet_width (im : GoImage) (x y : ℕ) (v : ℤ) :
    (imgSet im x y v).width = im.width := by
  unfold imgSet
  split_ifs <;> rfl

theorem imgSet_height (im : GoImage) (x y : ℕ) (v : ℤ) :
    (imgSet im x y v).height = im.height := by
  unfold imgSet
  split_ifs <;> rfl

theorem imgSet_pix (im : GoImage) (x y : ℕ) (v : ℤ) (a b : ℕ) :
    (imgSet im x y v).pix a b =
      if ((x : ℤ) < im.width ∧ (y : ℤ) < im.height) ∧ a = x ∧ b = y then v
      else im.pix a b := by
  unfold imgSet
  by_cases h1 : (x : ℤ) < im.width ∧ (y : ℤ) < im.height
  · rw [if_pos h1]
    by_cases h2 : a = x ∧ b = y
    · simp [h1, h2]
    · simp [h1, h2]
  · rw [if_neg h1]
    simp [h1]

theorem foldl_img_dims {ι : Type} (f : GoImage → ι → GoImage)
    (hf : ∀ im i, (f im i).width = im.width ∧ (f im i).height = im.height)
    (l : List ι) : ∀ im : GoImage,
      (l.foldl f im).width = im.width ∧ (l.foldl f im).height = im.height := by
  induction l with
  | nil => exact fun im => ⟨rfl, rfl⟩
  | cons i l ih =>
    intro im
    obtain ⟨h1, h2⟩ := ih (f im i)
    obtain ⟨h3, h4⟩ := hf im i
    exact ⟨h1.trans h3, h2.trans h4⟩

theorem rowFold_dims (lisa : List (List ℤ)) (x n : ℕ) (im : GoImage) :
    (rowFold lisa x n im).width = im.width ∧
      (rowFold lisa x n im).height = im.height :=
  foldl_img_dims _ (fun im2 y => ⟨imgSet_width im2 x y _, imgSet_height im2 x y _⟩)
    (List.range n) im

theorem gridFold_dims (lisa : List (List ℤ)) (m : ℕ) (im : GoImage) :
    (gridFold lisa m im).width = im.width ∧
      (gridFold lisa m im).height = im.height :=
  foldl_img_dims _ (fun im1 x => rowFold_dims lisa x _ im1) (List.range m) im

theorem rowFold_succ (lisa : List (List ℤ)) (x n : ℕ) (im : GoImage) :
    rowFold lisa x (n + 1) im =
      imgSet (rowFold lisa x n im) x n (getCell lisa x n) := by
  unfold rowFold
  rw [List.range_succ, List.foldl_append, List.foldl_cons, List.foldl_nil]

theorem gridFold_succ (lisa : List (List ℤ)) (m : ℕ) (im : GoImage) :
    gridFold lisa (m + 1) im =
      rowFold lisa m ((lisa.getD m []).length) (gridFold lisa m im) := by
  unfold gridFold
  rw [List.range_succ, List.foldl_append, List.foldl_cons, List.foldl_nil]

theorem rowFold_pix (lisa : List (List ℤ)) (x : ℕ) :
    ∀ (n : ℕ) (im : GoImage) (a b : ℕ),
      (rowFold lisa x n im).pix a b =
        if a = x ∧ b < n ∧ ((x : ℤ) < im.width ∧ (b : ℤ) < im.height) then
          getCell lisa x b
        else im.pix a b := by
  intro n
  induction n with
  | zero =>
    intro im a b
    simp [rowFold]
  | succ n ih =>
    intro im a b
    rw [rowFold_succ, imgSet_pix, (rowFold_dims lisa x n im).1,
      (rowFold_dims lisa x n im).2, ih]
    by_cases hc1 : ((x : ℤ) < im.width ∧ ((n : ℕ) : ℤ) < im.height) ∧
        a = x ∧ b = n
    · obtain ⟨⟨hw, hh⟩, ha, hb⟩ := hc1
      subst ha
      subst hb
      rw [if_pos ⟨⟨hw, hh⟩, rfl, rfl⟩, if_pos ⟨rfl, Nat.lt_succ_self b, hw, hh⟩]
    · rw [if_neg hc1]
      by_cases hc2 : a = x ∧ b < n ∧ ((x : ℤ) < im.width ∧ (b : ℤ) < im.height)
      · obtain ⟨ha, hb, hw, hh⟩ := hc2
        rw [if_pos ⟨ha, hb, hw, hh⟩, if_pos ⟨ha, Nat.lt_succ_of_lt hb, hw, hh⟩]
      · have hc3 : ¬(a = x ∧ b < n + 1 ∧
            ((x : ℤ) < im.width ∧ (b : ℤ) < im.height)) := by
          rintro ⟨ha, hb, hw, hh⟩
          rcases Nat.lt_succ_iff_lt_or_eq.mp hb with hb' | rfl
          · exact hc2 ⟨ha, hb', hw, hh⟩
          · exact hc1 ⟨⟨hw, hh⟩, ha, rfl⟩
        rw [if_neg hc2, if_neg hc3]

theorem gridFold_pix (lisa : List (List ℤ)) :
    ∀ (m : ℕ) (im : GoImage) (a b : ℕ),
      (gridFold lisa m im).pix a b =
        if a < m ∧ b < (lisa.getD a []).length ∧
            ((a : ℤ) < im.width ∧ (b : ℤ) < im.height) then
          getCell lisa a b
        else im.pix a b := by
  intro m
  induction m with
  | zero =>
    intro im a b
    simp [gridFold]
  | succ m ih =>
    intro im a b
    rw [gridFold_succ, rowFold_pix, (gridFold_dims lisa m im).1,
      (gridFold_dims lisa m im).2, ih]
    by_cases hc1 : a = m ∧ b < (lisa.getD m []).length ∧
        (((m : ℕ) : ℤ) < im.width ∧ (b : ℤ) < im.height)
    · obtain ⟨ha, hb, hw, hh⟩ := hc1
      subst ha
      rw [if_pos ⟨rfl, hb, hw, hh⟩, if_pos ⟨Nat.lt_succ_self a, hb, hw, hh⟩]
    · rw [if_neg hc1]
      by_cases hc2 : a < m ∧ b < (lisa.getD a []).length ∧
          ((a : ℤ) < im.width ∧ (b : ℤ) < im.height)
      · obtain ⟨ha, hb, hw, hh⟩ := hc2
        rw [if_pos ⟨ha, hb, hw, hh⟩, if_pos ⟨Nat.lt_succ_of_lt ha, hb, hw, hh⟩]
      · have hc3 : ¬(a < m + 1 ∧ b < (lisa.getD a []).length ∧
            ((a : ℤ) < im.width ∧ (b : ℤ) < im.height)) := by
          rintro ⟨ha, hb, hw, hh⟩
          rcases Nat.lt_succ_iff_lt_or_eq.mp ha with ha' | rfl
          · exact hc2 ⟨ha', hb, hw, hh⟩
          · exact hc1 ⟨rfl, hb, hw, hh⟩
        rw [if_neg hc2, if_neg hc3]

/-- C4: every produced frame is an indexed-color image of dimensions
`(2·size+1) × (2·size-1)`, and every pixel `(x, y)` of the frame that has
a corresponding cell of the `2·size × 2·size` intensity grid (i.e. every
pixel except the final, never-written column `x = 2·size`) stores that
cell's palette index, so its color is `Palette[IntensityGrid[pixel]]`. -/
theorem renderGrid_frame_spec (size : ℕ) (lisa : List (List ℤ))
    (hlen : lisa.length = 2 * size)
    (hrow : ∀ row ∈ lisa, row.length = 2 * size)
    (x y : ℕ) (hx : x < 2 * size) (hy : (y : ℤ) < 2 * (size : ℤ) - 1) :
    (renderGrid size lisa).width = 2 * (size : ℤ) + 1 ∧
    (renderGrid size lisa).height = 2 * (size : ℤ) - 1 ∧
    (renderGrid size lisa).pix x y = getCell lisa x y ∧
    paletteColor ((renderGrid size lisa).pix x y) =
      paletteColor (getCell lisa x y) := by
  rw [renderGrid_eq_gridFold]
  have hd := gridFold_dims lisa lisa.length
    ⟨2 * (size : ℤ) + 1, 2 * (size : ℤ) - 1, fun _ _ => 0⟩
  have h1 : x < lisa.length := by omega
  have h2 : (lisa.getD x []).length = 2 * size :=
    hrow _ (getD_row_mem lisa x h1)
  have h3 : y < (lisa.getD x []).length := by
    rw [h2]
    omega
  have hpix : (gridFold lisa lisa.length
      ⟨2 * (size : ℤ) + 1, 2 * (size : ℤ) - 1, fun _ _ => 0⟩).pix x y =
      getCell lisa x y := by
    rw [gridFold_pix]
    exact if_pos ⟨h1, h3, by push_cast; omega, by push_cast; omega⟩
  exact ⟨hd.1, hd.2, hpix, by rw [hpix]⟩

/-- C4 witness: a concrete `size = 1` frame built from a 2×2 grid. -/
theorem renderGrid_frame_spec_witness :
    (renderGrid 1 [[3, 0], [0, 7]]).width = 2 * ((1 : ℕ) : ℤ) + 1 ∧
    (renderGrid 1 [[3, 0], [0, 7]]).height = 2 * ((1 : ℕ) : ℤ) - 1 ∧
    (renderGrid 1 [[3, 0], [0, 7]]).pix 0 0 = getCell [[3, 0], [0, 7]] 0 0 ∧
    paletteColor ((renderGrid 1 [[3, 0], [0, 7]]).pix 0 0) =
      paletteColor (getCell [[3, 0], [0, 7]] 0 0) :=
  renderGrid_frame_spec 1 [[3, 0], [0, 7]] rfl (by decide) 0 0 (by norm_num)
    (by norm_num)

theorem sweepAux_stable {α : Type} [LinearOrderedField α] (limit res : α) :
    ∀ (n : ℕ) (t : α), ¬(t + (n : α) * res < limit) →
      ∀ m : ℕ, sweepAux limit res (n + m) t = sweepAux limit res n t := by
  intro n
  induction n with
  | zero =>
    intro t h m
    have ht : ¬t < limit := by simpa using h
    cases m with
    | zero => rfl
    | succ m =>
      show sweepAux limit res (0 + (m + 1)) t = sweepAux limit res 0 t
      rw [Nat.zero_add]
      simp [sweepAux, ht]
  | succ n ih =>
    intro t h m
    have e1 : n + 1 + m = (n + m) + 1 := by omega
    rw [e1]
    by_cases ht : t < limit
    · have h' : ¬(t + res + (n : α) * res < limit) := by
        intro hc
        apply h
        have e2 : t + ((n : ℕ) + 1 : α) * res = t + res + (n : α) * res := by
          ring
        push_cast
        rw [e2]
        exact hc
      simp only [sweepAux]
      rw [if_pos ht, if_pos ht, ih (t + res) h' m]
    · simp only [sweepAux]
      rw [if_neg ht, if_neg ht]

theorem sweepAux_length {α : Type} [LinearOrderedField α] [FloorRing α]
    (limit res : α) (hres : 0 < res) :
    ∀ (n : ℕ) (t : α), (⌈(limit - t) / res⌉).toNat ≤ n →
      (sweepAux limit res n t).length = (⌈(limit - t) / res⌉).toNat := by
  intro n
  induction n with
  | zero =>
    intro t h
    simp only [sweepAux, List.length_nil]
    omega
  | succ n ih =>
    intro t h
    by_cases ht : t < limit
    · have hceil : 0 < ⌈(limit - t) / res⌉ :=
        Int.ceil_pos.mpr (div_pos (by linarith) hres)
      have hstep : (limit - (t + res)) / res = (limit - t) / res - 1 := by
        have e : limit - (t + res) = limit - t - res := by ring
        rw [e, sub_div, div_self (ne_of_gt hres)]
      have hceil2 : ⌈(limit - (t + res)) / res⌉ = ⌈(limit - t) / res⌉ - 1 := by
        rw [hstep]
        exact_mod_cast Int.ceil_sub_one ((limit - t) / res)
      simp only [sweepAux]
      rw [if_pos ht]
      simp only [List.length_cons]
      rw [ih (t + res) (by omega), hceil2]
      omega
    · have hle : limit ≤ t := le_of_not_lt ht
      have h0 : (limit - t) / res ≤ 0 :=
        div_nonpos_of_nonpos_of_nonneg (by linarith) hres.le
      have : ⌈(limit - t) / res⌉ ≤ 0 := Int.ceil_le.mpr (by exact_mod_cast h0)
      simp only [sweepAux]
      rw [if_neg ht]
      simp only [List.length_nil]
      omega

theorem sweepAux_mem_lt {α : Type} [LinearOrderedField α] (limit res : α) :
    ∀ (n : ℕ) (t : α), ∀ s ∈ sweepAux limit res n t, s < limit := by
  intro n
  induction n with
  | zero =>
    intro t s hs
    simp [sweepAux] at hs
  | succ n ih =>
    intro t s hs
    simp only [sweepAux] at hs
    by_cases ht : t < limit
    · rw [if_pos ht] at hs
      rcases List.mem_cons.mp hs with rfl | hs'
      · exact ht
      · exact ih (t + res) s hs'
    · rw [if_neg ht] at hs
      simp at hs

/-- C8: sample count law. For `cycles = C > 0` and `res = R > 0`, one full
sweep of the curve sampler (the loop reaching its exit, i.e. run with at
least `⌈C·2π / R⌉` fuel) produces exactly `⌈C·2π / R⌉` samples, and every
sampled `t` is strictly below `C·2π`. -/
theorem sweep_sample_count (C R : ℝ) (hC : 0 < C) (hR : 0 < R) (fuel : ℕ)
    (hfuel : (⌈C * (2 * Real.pi) / R⌉).toNat ≤ fuel) :
    ((sweepAux (C * (2 * Real.pi)) R fuel 0).length : ℤ) =
      ⌈C * (2 * Real.pi) / R⌉ ∧
    ∀ s ∈ sweepAux (C * (2 * Real.pi)) R fuel 0, s < C * (2 * Real.pi) := by
  have hlim : 0 < C * (2 * Real.pi) := by positivity
  have hlen : (sweepAux (C * (2 * Real.pi)) R fuel 0).length =
      (⌈C * (2 * Real.pi) / R⌉).toNat := by
    have := sweepAux_length (C * (2 * Real.pi)) R hR fuel 0
      (by rw [sub_zero]; exact hfuel)
    rwa [sub_zero] at this
  constructor
  · rw [hlen]
    have hpos : 0 < ⌈C * (2 * Real.pi) / R⌉ :=
      Int.ceil_pos.mpr (div_pos hlim hR)
    omega
  · exact sweepAux_mem_lt _ _ fuel 0

/-- C8 witness: `C = 1`, `R = 7`. Since `2π < 7`, the sweep takes exactly
`⌈2π/7⌉ = 1` sample, with one unit of fuel sufficient. -/
theorem sweep_sample_count_witness :
    ((sweepAux ((1 : ℝ) * (2 * Real.pi)) 7 1 0).length : ℤ) =
      ⌈(1 : ℝ) * (2 * Real.pi) / 7⌉ ∧
    ∀ s ∈ sweepAux ((1 : ℝ) * (2 * Real.pi)) 7 1 0,
      s < (1 : ℝ) * (2 * Real.pi) :=
  sweep_sample_count 1 7 one_pos (by norm_num) 1 (by
    have hpi := Real.pi_lt_d2
    have h1 : (1 : ℝ) * (2 * Real.pi) / 7 ≤ 1 := by
      rw [div_le_one (by norm_num)]
      linarith
    have h2 : ⌈(1 : ℝ) * (2 * Real.pi) / 7⌉ ≤ 1 :=
      Int.ceil_le.mpr (by exact_mod_cast h1)
    omega)

/-- C9: termination of the angular sweep under the resolution
precondition. For every `limit` and every `res > 0`, the loop
`for t := 0; t < limit; t += res` exits after finitely many iterations:
there is a fuel bound past which adding more fuel does not change the
sweep. -/
theorem sweep_terminates (limit res : ℝ) (hres : 0 < res) :
    ∃ n : ℕ, ∀ m : ℕ,
      sweepAux limit res (n + m) 0 = sweepAux limit res n 0 := by
  obtain ⟨n, hn⟩ := exists_nat_ge (limit / res)
  refine ⟨n, sweepAux_stable limit res n 0 ?_⟩
  intro hc
  rw [div_le_iff₀ hres] at hn
  have : (0 : ℝ) + (n : ℝ) * res = (n : ℝ) * res := by ring
  rw [this] at hc
  linarith

/-- C9 witness: `limit = 1`, `res = 1`. -/
theorem sweep_terminates_witness :
    ∃ n : ℕ, ∀ m : ℕ,
      sweepAux (1 : ℝ) 1 (n + m) 0 = sweepAux (1 : ℝ) 1 n 0 :=
  sweep_terminates 1 1 one_pos

theorem lissajousLoop_spec (cfg : LisaConfig) (fuel : ℕ) :
    ∀ (n : ℕ) (xf yf xp yp : ℝ),
      (lissajousLoop cfg fuel n xf yf xp yp).1.length = n ∧
      (lissajousLoop cfg fuel n xf yf xp yp).2.length = n ∧
      ∀ d ∈ (lissajousLoop cfg fuel n xf yf xp yp).2, d = cfg.delay := by
  intro n
  induction n with
  | zero =>
    intro xf yf xp yp
    refine ⟨rfl, rfl, ?_⟩
    intro d hd
    simp [lissajousLoop] at hd
  | succ n ih =>
    intro xf yf xp yp
    obtain ⟨h1, h2, h3⟩ := ih (xf + cfg.xfreqInc) (yf + cfg.yfreqInc)
      (xp + cfg.xphaseInc) (yp + cfg.yphaseInc)
    refine ⟨?_, ?_, ?_⟩
    · simp only [lissajousLoop, List.length_cons, h1]
    · simp only [lissajousLoop, List.length_cons, h2]
    · intro d hd
      simp only [lissajousLoop] at hd
      rcases List.mem_cons.mp hd with rfl | hd'
      · rfl
      · exact h3 d hd'

/-- C6: frame count law. `lissajous` with `nframes = N` produces exactly
`N` frames and exactly `N` delay entries, each delay entry equal to the
configured delay; `N = 0` yields an empty animation. -/
theorem lissajous_frame_count (cfg : LisaConfig) (fuel : ℕ) :
    (lissajous cfg fuel).images.length = cfg.nframes ∧
    (lissajous cfg fuel).delays.length = cfg.nframes ∧
    (∀ d ∈ (lissajous cfg fuel).delays, d = cfg.delay) ∧
    (cfg.nframes = 0 →
      (lissajous cfg fuel).images = [] ∧ (lissajous cfg fuel).delays = []) := by
  obtain ⟨h1, h2, h3⟩ := lissajousLoop_spec cfg fuel cfg.nframes cfg.xfreq
    cfg.yfreq cfg.xphase cfg.yphase
  refine ⟨h1, h2, h3, fun h0 => ?_⟩
  constructor
  · exact List.length_eq_zero.mp (h1.trans h0)
  · exact List.length_eq_zero.mp (h2.trans h0)

/-- C6 witness: a configuration with `nframes = 0` yields empty frame and
delay sequences. -/
theorem lissajous_frame_count_witness :
    (lissajous ⟨0, 1, 8, 0, 0, 0, 0, 0, 0, 0, 0, 0, 0⟩ 0).images = [] ∧
    (lissajous ⟨0, 1, 8, 0, 0, 0, 0, 0, 0, 0, 0, 0, 0⟩ 0).delays = [] :=
  (lissajous_frame_count ⟨0, 1, 8, 0, 0, 0, 0, 0, 0, 0, 0, 0, 0⟩ 0).2.2.2 rfl

theorem lissajousLoop_getD (cfg : LisaConfig) (fuel : ℕ) :
    ∀ (n i : ℕ) (xf yf xp yp : ℝ), i < n →
      (lissajousLoop cfg fuel n xf yf xp yp).1.getD i defaultImg =
        buildFrame cfg.size cfg.cycles cfg.res (xf + (i : ℝ) * cfg.xfreqInc)
          (yf + (i : ℝ) * cfg.yfreqInc) (xp + (i : ℝ) * cfg.xphaseInc)
          (yp + (i : ℝ) * cfg.yphaseInc) fuel := by
  intro n
  induction n with
  | zero =>
    intro i xf yf xp yp hi
    exact absurd hi (Nat.not_lt_zero i)
  | succ n ih =>
    intro i xf yf xp yp hi
    cases i with
    | zero =>
      simp only [lissajousLoop, List.getD_cons_zero, Nat.cast_zero, zero_mul,
        add_zero]
    | succ i =>
      simp only [lissajousLoop, List.getD_cons_succ]
      rw [ih i (xf + cfg.xfreqInc) (yf + cfg.yfreqInc) (xp + cfg.xphaseInc)
        (yp + cfg.yphaseInc) (by omega)]
      push_cast
      ring_nf

/-- C7: parameter drift law. For every frame index `i < nframes`, the
`i`-th frame of the animation is built with effective parameters
`initial + i·increment` for each of `xfreq`, `yfreq`, `xphase`, `yphase`
(the loop advances each parameter by its increment once per frame). -/
theorem lissajous_parameter_drift (cfg : LisaConfig) (fuel : ℕ) (i : ℕ)
    (hi : i < cfg.nframes) :
    (lissajous cfg fuel).images.getD i defaultImg =
      buildFrame cfg.size cfg.cycles cfg.res
        (cfg.xfreq + (i : ℝ) * cfg.xfreqInc)
        (cfg.yfreq + (i : ℝ) * cfg.yfreqInc)
        (cfg.xphase + (i : ℝ) * cfg.xphaseInc)
        (cfg.yphase + (i : ℝ) * cfg.yphaseInc) fuel :=
  lissajousLoop_getD cfg fuel cfg.nframes i cfg.xfreq cfg.yfreq cfg.xphase
    cfg.yphase hi

/-- C7 witness: a two-frame configuration with `xfreqInc = 1`; frame 1 is
built with `xfreq = 0 + 1·1`. -/
theorem lissajous_parameter_drift_witness :
    (lissajous ⟨2, 1, 8, 0, 0, 1, 0, 0, 0, 0, 0, 0, 0⟩ 0).images.getD 1
        defaultImg =
      buildFrame 1 0 0 (0 + ((1 : ℕ) : ℝ) * 1) (0 + ((1 : ℕ) : ℝ) * 0)
        (0 + ((1 : ℕ) : ℝ) * 0) (0 + ((1 : ℕ) : ℝ) * 0) 0 :=
  lissajous_parameter_drift ⟨2, 1, 8, 0, 0, 1, 0, 0, 0, 0, 0, 0, 0⟩ 0 1
    (by norm_num)
